import Mathlib

/-!
Shallow embedding of the MleziCare single-page app (src/index.tsx):
the conversation-context assembly pipeline of `handleSendMessage`
(windowing, silent-message filtering, same-role turn merging,
leading-model-turn fixup, emptiness guard, remote call with fallback on
error), the mood logger `handleMoodSelection`, the chat reset
`handleNewChat`, and the login form `handleSubmit`.
-/

namespace MleziCare

/-- Sender role of a chat message (`'user' | 'model'` in the source). -/
inductive Role
  | user
  | model
deriving DecidableEq

/-- The `Message` interface `{ sender, text, isSilent? }`; an absent
`isSilent` field is falsy in JavaScript, embedded as `false`. -/
structure Message where
  sender : Role
  text : String
  isSilent : Bool := false
deriving DecidableEq

/-- One API turn `{ role, parts: [{ text }] }`; the assembler always builds
exactly one part per turn, embedded as a single text field. -/
structure Turn where
  role : Role
  text : String
deriving DecidableEq

/-- JavaScript `Array.prototype.slice(-n)`: the last `n` elements
(the whole list when it is shorter than `n`). -/
def takeLast (n : Nat) (l : List α) : List α := l.drop (l.length - n)

/-- Join a list of strings with newline separators, the shape produced by the
repeated `lastMsg.parts[0].text += "\n" + msg.parts[0].text` concatenation. -/
def joinNL : List String → String
  | [] => ""
  | [s] => s
  | s :: t :: rest => s ++ "\n" ++ joinNL (t :: rest)

/-- The seed greeting, sole element of `INITIAL_MESSAGES`. -/
def greetingMessage : Message :=
  { sender := Role.model
    text := "Hello, I'm Mlezi, your personal wellness companion. How are you feeling today? Feel free to share what's on your mind." }

/-- `INITIAL_MESSAGES`. -/
def INITIAL_MESSAGES : List Message := [greetingMessage]

/-- The fixed fallback text appended as a model turn when the remote call
throws. -/
def fallbackText : String :=
  "I'm having a little trouble connecting right now. Please try again in a moment."

/-- Step 1 of the assembly: `messagesWithUser.slice(-20)`. -/
def windowHistory (log : List Message) : List Message := takeLast 20 log

/-- Steps 2 and 3 of the assembly: `.filter(msg => !msg.isSilent)` followed by
`.map(msg => ({ role: msg.sender, parts: [{ text: msg.text }] }))`. -/
def toContents (log : List Message) : List Turn :=
  (log.filter fun m => !m.isSilent).map fun m => { role := m.sender, text := m.text }

/-- One step of `contents.reduce(...)`: mutating `acc[acc.length - 1]` in
place is embedded as replacing the last element of the accumulator. -/
def mergeStep (acc : List Turn) (msg : Turn) : List Turn :=
  match acc.getLast? with
  | some last =>
    if last.role = msg.role then
      acc.dropLast ++ [{ role := last.role, text := last.text ++ "\n" ++ msg.text }]
    else acc ++ [msg]
  | none => acc ++ [msg]

/-- The `contents.reduce((acc, msg) => ..., [])` turn-merging step. -/
def mergeTurns (l : List Turn) : List Turn := l.foldl mergeStep []

/-- Step 4: `if (mergedContents.length > 0 && mergedContents[0].role === 'model')
mergedContents.shift()`. -/
def fixLeading : List Turn → List Turn
  | [] => []
  | t :: rest => if t.role = Role.model then rest else t :: rest

/-- The whole request-contents assembly (steps 1 to 4) on a message log. -/
def assembleContents (log : List Message) : List Turn :=
  fixLeading (mergeTurns (toContents (windowHistory log)))

/-- One mood-history entry `{ mood, date }`. The `date: new Date()` field is
wall-clock time and is not modeled; the claims concern only count and
insertion order. -/
structure MoodEntry where
  mood : String
deriving DecidableEq

/-- The Dashboard component state the claims are about. -/
structure DashState where
  messages : List Message
  input : String
  isLoading : Bool
  error : String
  moodHistory : List MoodEntry
deriving DecidableEq

/-- The Dashboard state at mount. -/
def initDash : DashState :=
  { messages := INITIAL_MESSAGES, input := "", isLoading := false, error := "",
    moodHistory := [] }

/-- Result of one `handleSendMessage` run: the new component state and the
request contents sent to the remote service (`none` when no call was made). -/
structure SendResult where
  state : DashState
  request : Option (List Turn)
deriving DecidableEq

/-- The guard test `!messageText.trim()`: `trim()` strips leading and
trailing whitespace, and the result is falsy exactly when it is empty, so the
test holds iff the text is empty or whitespace-only. -/
def isBlank (text : String) : Bool := text.data.all Char.isWhitespace

/-- The user message `{ sender: 'user', text: messageText }`. -/
def mkUserMessage (text : String) : Message :=
  { sender := Role.user, text := text }

/-- Step 5 (the emptiness guard) and the remote call, the part of
`handleSendMessage` after the merged contents are built. `outcome` stands for
what `generateContent` does: `Except.ok t` a response with text `t`,
`Except.error ()` any thrown exception (network failure, malformed response,
uninitialized client). `st` is the state right after the user message was
appended, with the loading flag set. -/
def sendDispatch (merged : List Turn) (st : DashState) (outcome : Except Unit String) :
    SendResult :=
  if merged.isEmpty then
    { state := { st with isLoading := false }, request := none }
  else
    match outcome with
    | Except.ok t =>
      { state :=
          { st with
              messages := st.messages ++ [{ sender := Role.model, text := t }]
              isLoading := false }
        request := some merged }
    | Except.error _ =>
      { state :=
          { st with
              messages := st.messages ++ [{ sender := Role.model, text := fallbackText }]
              isLoading := false }
        request := some merged }

/-- `handleSendMessage(messageText)`. `ctx` is the `messages` value captured by
the closure at render time: it equals `st.messages` on a direct send, while
`handleMoodSelection` appends a silent message through a functional state
update the closure does not see. All state updates use the functional
`set(prev => ...)` form and therefore act on `st`. -/
def handleSendMessage (ctx : List Message) (st : DashState) (text : String)
    (outcome : Except Unit String) : SendResult :=
  if isBlank text = true ∨ st.isLoading = true then { state := st, request := none }
  else
    sendDispatch (assembleContents (ctx ++ [mkUserMessage text]))
      { st with
          messages := st.messages ++ [mkUserMessage text]
          input := if text = st.input then "" else st.input
          isLoading := true
          error := "" }
      outcome

/-- The silent message recorded on a mood selection. -/
def moodMessage (mood : String) : String := "I'm feeling " ++ mood ++ "."

/-- The synthesized prompt a mood selection sends. -/
def moodPrompt (mood : String) : String :=
  "I've just logged my mood as " ++ mood ++
    ". Can you give me a brief, supportive thought for the day based on that?"

/-- `setMoodHistory(prev => [...prev, newEntry].slice(-7))`. -/
def addMood (h : List MoodEntry) (e : MoodEntry) : List MoodEntry := takeLast 7 (h ++ [e])

/-- The mood history reached from an empty history by a sequence of
selections. -/
def moodFold (es : List MoodEntry) : List MoodEntry := es.foldl addMood []

/-- `handleMoodSelection(mood)`: cap-record the mood, append the silent user
message, then run `handleSendMessage` with the synthesized prompt. The inner
send's closure still sees the pre-append `messages` (the `ctx` argument). -/
def handleMoodSelection (st : DashState) (mood : String) (outcome : Except Unit String) :
    DashState :=
  (handleSendMessage st.messages
    { st with
        moodHistory := addMood st.moodHistory { mood := mood }
        messages := st.messages ++
          [{ sender := Role.user, text := moodMessage mood, isSilent := true }] }
    (moodPrompt mood) outcome).state

/-- `handleNewChat`: reset the log to the seed greeting, clear the draft,
loading flag and error (the mood history is kept). -/
def handleNewChat (st : DashState) : DashState :=
  { st with messages := INITIAL_MESSAGES, input := "", isLoading := false, error := "" }

/-- One user-visible dashboard operation together with the remote outcome its
send (if any) observes. -/
inductive Event
  | send (text : String) (outcome : Except Unit String)
  | mood (m : String) (outcome : Except Unit String)
  | newChat

/-- The state transition of one dashboard operation. -/
def stepEvent (st : DashState) : Event → DashState
  | Event.send t o => (handleSendMessage st.messages st t o).state
  | Event.mood m o => handleMoodSelection st m o
  | Event.newChat => handleNewChat st

/-- The dashboard state reached from mount by a sequence of operations. -/
def runEvents (evs : List Event) : DashState := evs.foldl stepEvent initDash

/-- The session of the App component: `isAuthenticated` with `userEmail`. -/
inductive Session
  | loggedOut
  | loggedIn (email : String)
deriving DecidableEq

/-- Outcome of a login submission: the session and the inline error text. -/
structure LoginResult where
  session : Session
  error : String
deriving DecidableEq

/-- JavaScript regular-expression class `\S`: any non-whitespace character. -/
def isNonWs (c : Char) : Bool := !c.isWhitespace

/-- After a candidate `@` with at least one non-whitespace character consumed,
look for the rest of `\S+\.\S+`: succeed at a literal dot followed by a
non-whitespace character, or consume one more non-whitespace character and
continue. -/
def dotSeek : List Char → Bool
  | [] => false
  | c :: rest =>
    (c == '.' && (match rest with | d :: _ => isNonWs d | [] => false)) ||
      (isNonWs c && dotSeek rest)

/-- Matches `\S+\.\S+` starting right after a candidate `@`. -/
def afterAt : List Char → Bool
  | [] => false
  | c :: rest => isNonWs c && dotSeek rest

/-- Unanchored search for `\S+@\S+\.\S+`: an `@` directly preceded by a
non-whitespace character and followed by a match of `\S+\.\S+`. -/
def atSearch : List Char → Bool
  | [] => false
  | [_] => false
  | a :: b :: rest => (isNonWs a && b == '@' && afterAt rest) || atSearch (b :: rest)

/-- `/\S+@\S+\.\S+/.test(email)`. -/
def testEmailPattern (email : String) : Bool := atSearch email.data

/-- The login form's `handleSubmit` composed with the App component's
`handleLogin`: the session and inline error resulting from submitting the
pair. It is a pure function of the two fields; no credential store exists. -/
def handleSubmit (email password : String) : LoginResult :=
  if email = "" ∨ password = "" then
    { session := Session.loggedOut, error := "Please enter both email and password." }
  else if !(testEmailPattern email) then
    { session := Session.loggedOut, error := "Please enter a valid email address." }
  else
    { session := Session.loggedIn email, error := "" }

/-- Specification-side merge, from the spec words: split the input into
maximal runs of adjacent same-role entries and emit one turn per run, its
text the newline-join of the run's texts. `mergeTurns` is compared against
this definition. -/
def mergeSpec : List Turn → List Turn
  | [] => []
  | t :: rest =>
    { role := t.role
      text := joinNL (t.text :: (rest.takeWhile fun u => u.role == t.role).map Turn.text) } ::
      mergeSpec (rest.dropWhile fun u => u.role == t.role)
termination_by l => l.length
decreasing_by
  simp only [List.length_cons]
  exact Nat.lt_succ_of_le (List.Sublist.length_le (List.dropWhile_sublist _))

/-! Properties of the newline join. -/

theorem joinNL_cons_cons (a b : String) (l : List String) :
    joinNL (a :: b :: l) = a ++ "\n" ++ joinNL (b :: l) := rfl

theorem joinNL_glue (a b : String) (l : List String) :
    joinNL ((a ++ "\n" ++ b) :: l) = joinNL (a :: b :: l) := by
  cases l with
  | nil => rfl
  | cons c l => simp only [joinNL, String.append_assoc]

theorem joinNL_append (xs ys : List String) (hx : xs ≠ []) (hy : ys ≠ []) :
    joinNL (xs ++ ys) = joinNL xs ++ "\n" ++ joinNL ys := by
  induction xs with
  | nil => cases hx rfl
  | cons a xs ih =>
    cases xs with
    | nil =>
      cases ys with
      | nil => cases hy rfl
      | cons b ys => simp [joinNL]
    | cons b xs =>
      simp only [List.cons_append] at ih ⊢
      rw [joinNL_cons_cons, joinNL_cons_cons, ih (by simp)]
      simp [String.append_assoc]

/-! Equation lemmas for `mergeSpec` and its relation to `mergeTurns`. -/

theorem mergeSpec_nil : mergeSpec [] = [] := by
  rw [mergeSpec]

theorem mergeSpec_cons (t : Turn) (rest : List Turn) :
    mergeSpec (t :: rest) =
      { role := t.role
        text := joinNL (t.text :: (rest.takeWhile fun u => u.role == t.role).map Turn.text) } ::
        mergeSpec (rest.dropWhile fun u => u.role == t.role) := by
  rw [mergeSpec]

theorem foldl_mergeStep_eq (rest : List Turn) :
    ∀ (front : List Turn) (cur : Turn),
      List.foldl mergeStep (front ++ [cur]) rest = front ++ mergeSpec (cur :: rest) := by
  induction rest with
  | nil =>
    intro front cur
    simp [mergeSpec_cons, mergeSpec_nil, joinNL]
  | cons t rest ih =>
    intro front cur
    simp only [List.foldl_cons]
    by_cases h : cur.role = t.role
    · have hstep : mergeStep (front ++ [cur]) t
          = front ++ [{ role := cur.role, text := cur.text ++ "\n" ++ t.text }] := by
        simp [mergeStep, List.getLast?_concat, List.dropLast_concat, h]
      rw [hstep, ih front { role := cur.role, text := cur.text ++ "\n" ++ t.text }]
      congr 1
      rw [mergeSpec_cons, mergeSpec_cons]
      have hp : (t.role == cur.role) = true := by simp [h.symm]
      simp only [List.takeWhile_cons, List.dropWhile_cons, hp, if_true, List.map_cons]
      rw [joinNL_glue]
    · have hstep : mergeStep (front ++ [cur]) t = (front ++ [cur]) ++ [t] := by
        simp [mergeStep, List.getLast?_concat, h]
      rw [hstep, ih (front ++ [cur]) t]
      rw [mergeSpec_cons cur (t :: rest)]
      have hp : (t.role == cur.role) = false := by
        simp only [beq_eq_false_iff_ne, ne_eq]
        intro he; exact h he.symm
      simp only [List.takeWhile_cons, List.dropWhile_cons, hp, if_false, List.map_nil,
        List.append_assoc, List.singleton_append]
      rfl

theorem mergeTurns_eq_mergeSpec (l : List Turn) : mergeTurns l = mergeSpec l := by
  cases l with
  | nil => simp [mergeTurns, mergeSpec_nil]
  | cons t rest =>
    have h0 : mergeStep [] t = [t] := by simp [mergeStep]
    have h1 : mergeTurns (t :: rest) = List.foldl mergeStep ([] ++ [t]) rest := by
      simp [mergeTurns, h0]
    rw [h1, foldl_mergeStep_eq rest [] t]
    simp

theorem dropWhile_head_false {α} {p : α → Bool} :
    ∀ {l : List α} {x : α} {xs : List α}, l.dropWhile p = x :: xs → p x = false := by
  intro l
  induction l with
  | nil => intro x xs h; cases h
  | cons a l ih =>
    intro x xs h
    rw [List.dropWhile_cons] at h
    by_cases hp : p a = true
    · rw [if_pos hp] at h; exact ih h
    · rw [if_neg hp] at h
      cases h
      exact Bool.eq_false_iff.mpr hp

theorem mergeSpec_head_role (t : Turn) (rest : List Turn) :
    ∃ s tl, mergeSpec (t :: rest) = { role := t.role, text := s } :: tl := by
  rw [mergeSpec_cons]
  exact ⟨_, _, rfl⟩

theorem chain_mergeSpec (l : List Turn) :
    List.Chain' (fun a b : Turn => a.role ≠ b.role) (mergeSpec l) := by
  induction l using mergeSpec.induct with
  | case1 => simp [mergeSpec_nil]
  | case2 t rest ih =>
    rw [mergeSpec_cons]
    rcases hd : rest.dropWhile (fun u => u.role == t.role) with _ | ⟨x, xs⟩
    · rw [hd] at ih ⊢
      simp [mergeSpec_nil]
    · rw [hd] at ih ⊢
      rw [List.chain'_cons']
      refine ⟨?_, ih⟩
      intro y hy
      obtain ⟨s, tl, he⟩ := mergeSpec_head_role x xs
      rw [he] at hy
      simp only [List.head?_cons, Option.mem_def, Option.some.injEq] at hy
      have hx : (x.role == t.role) = false :=
        dropWhile_head_false (p := fun u : Turn => u.role == t.role) hd
      have hne : ¬ x.role = t.role := by simpa using hx
      subst hy
      simp only [ne_eq]
      intro hc
      exact hne (by rw [← hc])

theorem mergeSpec_of_chain (l : List Turn)
    (h : List.Chain' (fun a b : Turn => a.role ≠ b.role) l) : mergeSpec l = l := by
  induction l with
  | nil => simp [mergeSpec_nil]
  | cons t rest ih =>
    rw [mergeSpec_cons]
    cases rest with
    | nil => simp [mergeSpec_nil, joinNL]
    | cons x xs =>
      have hne : t.role ≠ x.role := (List.chain'_cons.mp h).1
      have hp : (x.role == t.role) = false := by
        simp only [beq_eq_false_iff_ne, ne_eq]
        intro he; exact hne he.symm
      have htw : (x :: xs).takeWhile (fun u => u.role == t.role) = [] := by
        simp [List.takeWhile_cons, hp]
      have hdw : (x :: xs).dropWhile (fun u => u.role == t.role) = x :: xs := by
        simp [List.dropWhile_cons, hp]
      rw [htw, hdw, ih (List.chain'_cons.mp h).2]
      simp [joinNL]

theorem mergeSpec_ne_nil (t : Turn) (rest : List Turn) : mergeSpec (t :: rest) ≠ [] := by
  rw [mergeSpec_cons]
  simp

theorem joinNL_mergeSpec (l : List Turn) :
    joinNL ((mergeSpec l).map Turn.text) = joinNL (l.map Turn.text) := by
  induction l using mergeSpec.induct with
  | case1 => simp [mergeSpec_nil]
  | case2 t rest ih =>
    rw [mergeSpec_cons]
    rcases hd : rest.dropWhile (fun u => u.role == t.role) with _ | ⟨x, xs⟩
    · have htw : rest.takeWhile (fun u => u.role == t.role) = rest := by
        have hs := List.takeWhile_append_dropWhile (p := fun u : Turn => u.role == t.role)
          (l := rest)
        rw [hd] at hs
        simpa using hs
      rw [hd] at ih ⊢
      rw [htw]
      simp [mergeSpec_nil, joinNL]
    · rw [hd] at ih ⊢
      have hm : mergeSpec (x :: xs) ≠ [] := mergeSpec_ne_nil x xs
      have hmm : (mergeSpec (x :: xs)).map Turn.text ≠ [] := by
        intro hc
        exact hm (List.map_eq_nil_iff.mp hc)
      have h1 : joinNL
          (joinNL (t.text :: (rest.takeWhile fun u => u.role == t.role).map Turn.text) ::
            (mergeSpec (x :: xs)).map Turn.text)
          = joinNL (t.text :: (rest.takeWhile fun u => u.role == t.role).map Turn.text)
            ++ "\n" ++ joinNL ((mergeSpec (x :: xs)).map Turn.text) := by
        have := joinNL_append
          [joinNL (t.text :: (rest.takeWhile fun u => u.role == t.role).map Turn.text)]
          ((mergeSpec (x :: xs)).map Turn.text) (by simp) hmm
        simpa [joinNL] using this
      rw [List.map_cons, h1, ih]
      have h2 : joinNL ((t.text :: (rest.takeWhile fun u => u.role == t.role).map Turn.text)
            ++ (x :: xs).map Turn.text)
          = joinNL (t.text :: (rest.takeWhile fun u => u.role == t.role).map Turn.text)
            ++ "\n" ++ joinNL ((x :: xs).map Turn.text) :=
        joinNL_append _ _ (by simp) (by simp)
      rw [← h2]
      have h3 : (t.text :: (rest.takeWhile fun u => u.role == t.role).map Turn.text)
            ++ (x :: xs).map Turn.text
          = t.text :: rest.map Turn.text := by
        rw [List.cons_append, ← List.map_append, ← hd,
          List.takeWhile_append_dropWhile]
      rw [h3]
      simp

theorem mergeSpec_mem (l : List Turn) (t : Turn) (ht : t ∈ mergeSpec l) :
    ∃ run : List Turn, run ≠ [] ∧ run.Sublist l ∧ (∀ u ∈ run, u.role = t.role) ∧
      t.text = joinNL (run.map Turn.text) := by
  induction l using mergeSpec.induct with
  | case1 => rw [mergeSpec_nil] at ht; cases ht
  | case2 x rest ih =>
    rw [mergeSpec_cons] at ht
    rcases List.mem_cons.mp ht with h | h
    · refine ⟨x :: rest.takeWhile (fun u => u.role == x.role), by simp, ?_, ?_, ?_⟩
      · exact List.Sublist.cons₂ x (List.takeWhile_sublist _)
      · intro u hu
        rcases List.mem_cons.mp hu with rfl | hu
        · rw [h]
        · have hp := List.mem_takeWhile_imp hu
          have : u.role = x.role := by simpa using hp
          rw [h]
          exact this
      · rw [h]
        simp
    · obtain ⟨run, h1, h2, h3, h4⟩ := ih h
      exact ⟨run, h1, ((h2.trans (List.dropWhile_sublist _)).cons x), h3, h4⟩

/-! Properties of `takeLast` (JavaScript `slice(-n)`) and the mood history. -/

theorem takeLast_snoc {α} (n : Nat) (l : List α) (e : α) :
    takeLast n (takeLast n l ++ [e]) = takeLast n (l ++ [e]) := by
  simp only [takeLast, List.length_append, List.length_drop, List.length_cons,
    List.length_nil]
  by_cases h : n ≤ l.length
  · by_cases h0 : n = 0
    · subst h0
      simp only [Nat.sub_zero, List.drop_length, Nat.sub_self, List.nil_append]
      rw [List.drop_of_length_le (l := [e]) (by simp)]
      exact (List.drop_of_length_le (by simp)).symm
    · have i1 : l.length - (l.length - n) + (0 + 1) - n = 1 := by omega
      rw [i1]
      have i2 : (1 : Nat) ≤ (l.drop (l.length - n)).length := by
        rw [List.length_drop]; omega
      rw [List.drop_append_of_le_length i2, List.drop_drop]
      have i3 : l.length + (0 + 1) - n ≤ l.length := by omega
      rw [List.drop_append_of_le_length i3]
      have i4 : l.length - n + 1 = l.length + (0 + 1) - n := by omega
      rw [i4]
  · have i0 : l.length - n = 0 := by omega
    have i1 : l.length - (l.length - n) + (0 + 1) - n = l.length + (0 + 1) - n := by omega
    rw [i1, i0, List.drop_zero]

theorem moodFold_eq (es : List MoodEntry) : moodFold es = takeLast 7 es := by
  induction es using List.reverseRecOn with
  | nil => rfl
  | append_singleton l e ih =>
    have h1 : moodFold (l ++ [e]) = addMood (moodFold l) e := by
      simp [moodFold]
    rw [h1, ih]
    simpa [addMood] using takeLast_snoc 7 l e

theorem takeLast_length_le {α} (n : Nat) (l : List α) : (takeLast n l).length ≤ n := by
  simp only [takeLast, List.length_drop]
  omega

theorem addMood_full (h : List MoodEntry) (e : MoodEntry) (hl : h.length = 7) :
    addMood h e = h.tail ++ [e] := by
  show (h ++ [e]).drop ((h ++ [e]).length - 7) = h.tail ++ [e]
  have h1 : (h ++ [e]).length - 7 = 1 := by simp [hl]
  rw [h1, List.drop_append_of_le_length (by omega), List.drop_one]

/-! The leading-turn fixup only ever removes elements. -/

theorem mem_of_mem_fixLeading {t : Turn} {l : List Turn} (h : t ∈ fixLeading l) : t ∈ l := by
  cases l with
  | nil => cases h
  | cons a rest =>
    have he : fixLeading (a :: rest) = if a.role = Role.model then rest else a :: rest := rfl
    rw [he] at h
    by_cases ha : a.role = Role.model
    · rw [if_pos ha] at h
      exact List.mem_cons_of_mem a h
    · rw [if_neg ha] at h
      exact h

/-- Every assembled turn is made exclusively of non-silent messages of the
window, of its own role, newline-joined in order. -/
theorem assemble_provenance (log : List Message) (t : Turn)
    (ht : t ∈ assembleContents log) :
    ∃ run : List Message, run ≠ [] ∧ run.Sublist (windowHistory log) ∧
      (∀ m ∈ run, m.isSilent = false ∧ m.sender = t.role) ∧
      t.text = joinNL (run.map Message.text) := by
  have ht1 : t ∈ mergeTurns (toContents (windowHistory log)) := mem_of_mem_fixLeading ht
  rw [mergeTurns_eq_mergeSpec] at ht1
  obtain ⟨run', h1, h2, h3, h4⟩ := mergeSpec_mem _ t ht1
  have h2' : run'.Sublist
      (((windowHistory log).filter fun m => !m.isSilent).map
        fun m => ({ role := m.sender, text := m.text } : Turn)) := h2
  obtain ⟨r, hr1, hr2⟩ := List.sublist_map_iff.mp h2'
  refine ⟨r, ?_, hr1.trans (List.filter_sublist _), ?_, ?_⟩
  · intro hc
    subst hc
    simp only [List.map_nil] at hr2
    exact h1 hr2
  · intro m hm
    constructor
    · have hmem := List.mem_filter.mp (hr1.subset hm)
      simpa using hmem.2
    · have hmm : ({ role := m.sender, text := m.text } : Turn) ∈ run' := by
        rw [hr2]
        exact List.mem_map_of_mem _ hm
      simpa using h3 _ hmm
  · rw [h4, hr2, List.map_map]
    rfl

/-! The message log only grows under sends and mood selections. -/

theorem send_messages_append (ctx : List Message) (st : DashState) (text : String)
    (o : Except Unit String) :
    ∃ suffix, (handleSendMessage ctx st text o).state.messages = st.messages ++ suffix := by
  unfold handleSendMessage
  by_cases hg : isBlank text = true ∨ st.isLoading = true
  · rw [if_pos hg]
    exact ⟨[], by simp⟩
  · rw [if_neg hg]
    unfold sendDispatch
    by_cases he : (assembleContents (ctx ++ [mkUserMessage text])).isEmpty = true
    · rw [if_pos he]
      exact ⟨[mkUserMessage text], rfl⟩
    · rw [if_neg he]
      cases o with
      | ok s =>
        exact ⟨[mkUserMessage text, { sender := Role.model, text := s }], by simp⟩
      | error u =>
        exact ⟨[mkUserMessage text, { sender := Role.model, text := fallbackText }], by simp⟩

theorem mood_messages_append (st : DashState) (m : String) (o : Except Unit String) :
    ∃ suffix, (handleMoodSelection st m o).messages = st.messages ++ suffix := by
  obtain ⟨suffix, hs⟩ := send_messages_append st.messages
    { st with
        moodHistory := addMood st.moodHistory { mood := m }
        messages := st.messages ++
          [{ sender := Role.user, text := moodMessage m, isSilent := true }] }
    (moodPrompt m) o
  refine ⟨[{ sender := Role.user, text := moodMessage m, isSilent := true }] ++ suffix, ?_⟩
  unfold handleMoodSelection
  rw [hs]
  simp

theorem step_head (st : DashState) (ev : Event)
    (h : st.messages.head? = some greetingMessage) :
    (stepEvent st ev).messages.head? = some greetingMessage := by
  cases ev with
  | send t o =>
    obtain ⟨suffix, hs⟩ := send_messages_append st.messages st t o
    show (handleSendMessage st.messages st t o).state.messages.head? = some greetingMessage
    rw [hs, List.head?_append, h]
    rfl
  | mood m o =>
    obtain ⟨suffix, hs⟩ := mood_messages_append st m o
    show (handleMoodSelection st m o).messages.head? = some greetingMessage
    rw [hs, List.head?_append, h]
    rfl
  | newChat =>
    show (handleNewChat st).messages.head? = some greetingMessage
    rfl

theorem run_head (evs : List Event) :
    (runEvents evs).messages.head? = some greetingMessage := by
  have main : ∀ (l : List Event) (st : DashState),
      st.messages.head? = some greetingMessage →
      (List.foldl stepEvent st l).messages.head? = some greetingMessage := by
    intro l
    induction l with
    | nil => intro st h; exact h
    | cons e l ih => intro st h; exact ih _ (step_head st e h)
  exact main evs initDash rfl

/-! The claims. -/

/-- C1: every turn of the assembled API request contents is built exclusively
from non-silent messages of the window, of the turn's own role, so no entry
with the silent flag survives and no silent entry's text reaches any
assembled turn: the filtering step runs before the merge step. -/
theorem c1_silent_filtered_before_merge (log : List Message) (t : Turn)
    (ht : t ∈ assembleContents log) :
    ∃ run : List Message, run ≠ [] ∧ run.Sublist (windowHistory log) ∧
      (∀ m ∈ run, m.isSilent = false ∧ m.sender = t.role) ∧
      t.text = joinNL (run.map Message.text) :=
  assemble_provenance log t ht

/-- Witness for C1 on a log with a silent mood entry. -/
theorem c1_silent_filtered_before_merge_witness :
    (Turn.mk Role.user ("hi")) ∈
      assembleContents (INITIAL_MESSAGES ++ [⟨Role.user, "mood", true⟩, ⟨Role.user, "hi", false⟩]) ∧
    (∃ run : List Message, run ≠ [] ∧
      run.Sublist (windowHistory
        (INITIAL_MESSAGES ++ [⟨Role.user, "mood", true⟩, ⟨Role.user, "hi", false⟩])) ∧
      (∀ m ∈ run, m.isSilent = false ∧ m.sender = (Turn.mk Role.user ("hi")).role) ∧
      (Turn.mk Role.user ("hi")).text = joinNL (run.map Message.text)) :=
  ⟨by decide, c1_silent_filtered_before_merge _ _ (by decide)⟩

/-- C2: the turn merge never leaves two adjacent output turns with the same
role, it is idempotent, and on `[(user, A), (user, B), (model, C)]` it yields
`[(user, A\nB), (model, C)]`. -/
theorem c2_merge_alternation_idempotent :
    (∀ l : List Turn,
      List.Chain' (fun a b : Turn => a.role ≠ b.role) (mergeTurns l) ∧
      mergeTurns (mergeTurns l) = mergeTurns l) ∧
    mergeTurns [⟨Role.user, "A"⟩, ⟨Role.user, "B"⟩, ⟨Role.model, "C"⟩]
      = [⟨Role.user, "A\nB"⟩, ⟨Role.model, "C"⟩] := by
  constructor
  · intro l
    have hc : List.Chain' (fun a b : Turn => a.role ≠ b.role) (mergeTurns l) := by
      rw [mergeTurns_eq_mergeSpec l]
      exact chain_mergeSpec l
    refine ⟨hc, ?_⟩
    rw [mergeTurns_eq_mergeSpec (mergeTurns l), mergeSpec_of_chain (mergeTurns l) hc]
  · decide

/-- C3: when the remote call raises, the only message-log change of the send
is the user message followed by exactly one model-role message carrying the
fixed fallback text, and the loading flag is false afterwards. -/
theorem c3_failure_appends_fallback (ctx : List Message) (st : DashState) (text : String)
    (h1 : isBlank text = false) (h2 : st.isLoading = false)
    (h3 : (assembleContents (ctx ++ [mkUserMessage text])).isEmpty = false) :
    (handleSendMessage ctx st text (Except.error ())).state.messages
        = st.messages ++ [mkUserMessage text,
            { sender := Role.model, text := fallbackText, isSilent := false }] ∧
      (handleSendMessage ctx st text (Except.error ())).state.isLoading = false := by
  unfold handleSendMessage
  rw [if_neg (by simp [h1, h2])]
  unfold sendDispatch
  rw [if_neg (by simp [h3])]
  exact ⟨by simp, rfl⟩

/-- Witness for C3 on a direct send of "hi" from the freshly mounted
dashboard with a failing remote call. -/
theorem c3_failure_appends_fallback_witness :
    (isBlank ("hi") = false ∧ initDash.isLoading = false ∧
      (assembleContents ([] ++ [mkUserMessage ("hi")])).isEmpty = false) ∧
    ((handleSendMessage [] initDash ("hi") (Except.error ())).state.messages
        = initDash.messages ++ [mkUserMessage ("hi"),
            { sender := Role.model, text := fallbackText, isSilent := false }] ∧
      (handleSendMessage [] initDash ("hi") (Except.error ())).state.isLoading = false) :=
  ⟨⟨by decide, by decide, by decide⟩,
    c3_failure_appends_fallback [] initDash ("hi") (by decide) (by decide) (by decide)⟩

/-- C4: the leading-turn fixup removes exactly the first element when its
role is model, and leaves the list unchanged when its role is user. -/
theorem c4_leading_fixup (t : Turn) (rest : List Turn) :
    (t.role = Role.model → fixLeading (t :: rest) = rest) ∧
    (t.role = Role.user → fixLeading (t :: rest) = t :: rest) := by
  constructor
  · intro h
    have he : fixLeading (t :: rest) = if t.role = Role.model then rest else t :: rest := rfl
    rw [he, if_pos h]
  · intro h
    have he : fixLeading (t :: rest) = if t.role = Role.model then rest else t :: rest := rfl
    rw [he, if_neg (by rw [h]; intro hc; cases hc)]

/-- Witness for C4 on a leading model turn. -/
theorem c4_leading_fixup_witness :
    (Turn.mk Role.model ("x")).role = Role.model ∧
    fixLeading [Turn.mk Role.model ("x"), Turn.mk Role.user ("y")]
      = [Turn.mk Role.user ("y")] :=
  ⟨rfl, (c4_leading_fixup (Turn.mk Role.model ("x")) [Turn.mk Role.user ("y")]).1 rfl⟩

/-- C5: when the assembled turn list is empty, the dispatch issues no remote
call, resets the loading flag, and leaves the message log untouched. -/
theorem c5_empty_abort (log : List Message) (st : DashState) (o : Except Unit String)
    (h : assembleContents log = []) :
    (sendDispatch (assembleContents log) st o).request = none ∧
    (sendDispatch (assembleContents log) st o).state.isLoading = false ∧
    (sendDispatch (assembleContents log) st o).state.messages = st.messages := by
  rw [h]
  exact ⟨rfl, rfl, rfl⟩

/-- Witness for C5: the seed log alone (a single model message) assembles to
the empty turn list. -/
theorem c5_empty_abort_witness :
    assembleContents INITIAL_MESSAGES = [] ∧
    ((sendDispatch (assembleContents INITIAL_MESSAGES) initDash (Except.error ())).request
        = none ∧
      (sendDispatch (assembleContents INITIAL_MESSAGES) initDash
        (Except.error ())).state.isLoading = false ∧
      (sendDispatch (assembleContents INITIAL_MESSAGES) initDash
        (Except.error ())).state.messages = initDash.messages) :=
  ⟨by decide, c5_empty_abort INITIAL_MESSAGES initDash (Except.error ()) (by decide)⟩

/-- C6: the mood history never exceeds 7 entries and always equals the last 7
selections in insertion order; inserting into a full 7-entry history evicts
exactly the oldest entry. -/
theorem c6_mood_capacity :
    (∀ es : List MoodEntry, (moodFold es).length ≤ 7 ∧ moodFold es = takeLast 7 es) ∧
    (∀ (h : List MoodEntry) (e : MoodEntry), h.length = 7 → addMood h e = h.tail ++ [e]) := by
  constructor
  · intro es
    refine ⟨?_, moodFold_eq es⟩
    rw [moodFold_eq es]
    exact takeLast_length_le 7 es
  · intro h e hl
    exact addMood_full h e hl

/-- Witness for C6 on a full 7-entry history. -/
theorem c6_mood_capacity_witness :
    ([⟨"m1"⟩, ⟨"m2"⟩, ⟨"m3"⟩, ⟨"m4"⟩, ⟨"m5"⟩, ⟨"m6"⟩, ⟨"m7"⟩] : List MoodEntry).length = 7 ∧
    addMood [⟨"m1"⟩, ⟨"m2"⟩, ⟨"m3"⟩, ⟨"m4"⟩, ⟨"m5"⟩, ⟨"m6"⟩, ⟨"m7"⟩] ⟨"m8"⟩
      = ([⟨"m1"⟩, ⟨"m2"⟩, ⟨"m3"⟩, ⟨"m4"⟩, ⟨"m5"⟩, ⟨"m6"⟩,
          ⟨"m7"⟩] : List MoodEntry).tail ++ [⟨"m8"⟩] :=
  ⟨by decide, c6_mood_capacity.2 _ _ (by decide)⟩

/-- C7: in every reachable dashboard state the message log is non-empty and
starts with the seed greeting, and every operation other than the new-chat
reset only appends to the log. -/
theorem c7_log_invariant :
    (∀ evs : List Event, (runEvents evs).messages ≠ [] ∧
      (runEvents evs).messages.head? = some greetingMessage) ∧
    (∀ (st : DashState) (ev : Event), ev ≠ Event.newChat →
      ∃ suffix, (stepEvent st ev).messages = st.messages ++ suffix) := by
  constructor
  · intro evs
    have h := run_head evs
    refine ⟨?_, h⟩
    intro hc
    rw [hc] at h
    cases h
  · intro st ev hev
    cases ev with
    | send t o => exact send_messages_append st.messages st t o
    | mood m o => exact mood_messages_append st m o
    | newChat => exact absurd rfl hev

/-- Witness for C7 on a plain send event. -/
theorem c7_log_invariant_witness :
    Event.send ("hi") (Except.ok ("ok")) ≠ Event.newChat ∧
    ∃ suffix, (stepEvent initDash (Event.send ("hi") (Except.ok ("ok")))).messages
      = initDash.messages ++ suffix :=
  ⟨by simp, c7_log_invariant.2 initDash (Event.send ("hi") (Except.ok ("ok"))) (by simp)⟩

/-- C8: login succeeds exactly for a non-empty email matching the
`\S+@\S+\.\S+` pattern together with a non-empty password — the result is a
pure function of the two fields, no credential store being consulted — and on
any failed submission the session stays logged out with an inline error
message set. -/
theorem c8_login_validation (email password : String) :
    ((handleSubmit email password).session = Session.loggedIn email ↔
      (email ≠ "" ∧ testEmailPattern email = true ∧ password ≠ "")) ∧
    (¬ (email ≠ "" ∧ testEmailPattern email = true ∧ password ≠ "") →
      (handleSubmit email password).session = Session.loggedOut ∧
      (handleSubmit email password).error ≠ "") := by
  by_cases he : email = ""
  · have hs : handleSubmit email password =
        { session := Session.loggedOut, error := "Please enter both email and password." } := by
      unfold handleSubmit
      rw [if_pos (Or.inl he)]
    rw [hs]
    constructor
    · constructor
      · intro hc
        cases hc
      · rintro ⟨hne, -, -⟩
        exact absurd he hne
    · intro hcon
      exact ⟨rfl, by decide⟩
  · by_cases hp : password = ""
    · have hs : handleSubmit email password =
          { session := Session.loggedOut,
            error := "Please enter both email and password." } := by
        unfold handleSubmit
        rw [if_pos (Or.inr hp)]
      rw [hs]
      constructor
      · constructor
        · intro hc
          cases hc
        · rintro ⟨-, -, hne⟩
          exact absurd hp hne
      · intro hcon
        exact ⟨rfl, by decide⟩
    · by_cases hv : testEmailPattern email = true
      · have hs : handleSubmit email password =
            { session := Session.loggedIn email, error := "" } := by
          unfold handleSubmit
          rw [if_neg (by simp [he, hp]), if_neg (by simp [hv])]
        rw [hs]
        constructor
        · constructor
          · intro hc
            exact ⟨he, hv, hp⟩
          · intro hcon
            rfl
        · intro hcon
          exact absurd ⟨he, hv, hp⟩ hcon
      · have hs : handleSubmit email password =
            { session := Session.loggedOut,
              error := "Please enter a valid email address." } := by
          unfold handleSubmit
          rw [if_neg (by simp [he, hp]), if_pos (by simp [hv])]
        rw [hs]
        constructor
        · constructor
          · intro hc
            cases hc
          · rintro ⟨-, hm, -⟩
            exact absurd hm hv
        · intro hcon
          exact ⟨rfl, by decide⟩

/-- Witness for C8 on an empty email with a non-empty password. -/
theorem c8_login_validation_witness :
    (¬ (("" : String) ≠ "" ∧ testEmailPattern ("") = true ∧ ("p" : String) ≠ "")) ∧
    ((handleSubmit ("") ("p")).session = Session.loggedOut ∧
      (handleSubmit ("") ("p")).error ≠ "") :=
  ⟨by decide, (c8_login_validation ("") ("p")).2 (by decide)⟩

/-- C9: the turn merge refines run-grouping: it equals the specification that
groups maximal same-role runs and newline-joins their texts, and in
particular the newline-join of all its output texts equals the newline-join
of all input texts — no text is dropped, duplicated or reordered. -/
theorem c9_merge_preserves_text (l : List Turn) :
    mergeTurns l = mergeSpec l ∧
    joinNL ((mergeTurns l).map Turn.text) = joinNL (l.map Turn.text) := by
  refine ⟨mergeTurns_eq_mergeSpec l, ?_⟩
  rw [mergeTurns_eq_mergeSpec l]
  exact joinNL_mergeSpec l

/-- C10: a blank (empty or whitespace-only) message text or an in-flight
request makes `handleSendMessage` return immediately: the whole state
(message log, input draft, loading flag, error string) is unchanged and no
remote call is made. -/
theorem c10_guard_no_effect (ctx : List Message) (st : DashState) (text : String)
    (o : Except Unit String) (h : isBlank text = true ∨ st.isLoading = true) :
    handleSendMessage ctx st text o = { state := st, request := none } := by
  unfold handleSendMessage
  rw [if_pos h]

/-- Witness for C10 on a whitespace-only draft. -/
theorem c10_guard_no_effect_witness :
    (isBlank (" ") = true ∨ initDash.isLoading = true) ∧
    handleSendMessage [] initDash (" ") (Except.ok ("x"))
      = { state := initDash, request := none } :=
  ⟨Or.inl (by decide), c10_guard_no_effect [] initDash (" ") (Except.ok ("x"))
    (Or.inl (by decide))⟩

end MleziCare
